import Mathlib

set_option autoImplicit false

/-!
Shallow embedding of the feature-extraction library of this repository:
`educe/rst_dt/learning/features.py` and `educe/learning/vocabulary_format.py`.
Pure functions of the source become Lean functions; Python dictionaries become
association lists with Python-dict insert/lookup semantics; the extraction
generator becomes a function returning the list of produced records together
with an optional exception name.
-/

namespace Educe

/-- An elementary discourse unit (EDU) as consumed by the feature extractors:
its document-order index `num`, its raw `text`, its character span
(`text_span().char_start` / `char_end`) and its `identifier()`. -/
structure Edu where
  num : Int
  text : String
  charStart : Int
  charEnd : Int
  ident : String
deriving DecidableEq, Repr

/-- A feature value: a string, an integer, or Python `None`. -/
inductive Val where
  | vStr : String → Val
  | vInt : Int → Val
  | vNone : Val
deriving DecidableEq, Repr

/-- One step of `re.sub(r'(\.|<P>|,)*$', r'', text)` on the reversed character
list: repeatedly strip a trailing `'.'`, `','` or `"<P>"`.  The three tokens
end in distinct characters, so greedy right-to-left stripping removes exactly
the maximal suffix that is a concatenation of those tokens, which is what the
anchored regex deletes. -/
def stripMetaRev : List Char → List Char
  | '.' :: rest => stripMetaRev rest
  | ',' :: rest => stripMetaRev rest
  | '>' :: 'P' :: '<' :: rest => stripMetaRev rest
  | l => l

/-- Model of `clean_edu_text`: strip the metadata suffix, then a single leading
double-quote (`re.sub(r'^"', r'', ...)`). -/
def clean_edu_text (s : String) : String :=
  match (stripMetaRev s.data.reverse).reverse with
  | '"' :: rest => String.mk rest
  | cs => String.mk cs

/-- The whitespace characters of Python `str.split()` (no arguments). -/
def isPyWs (c : Char) : Bool :=
  c = ' ' || c = '\t' || c = '\n' || c = '\r' || c = '\x0b' || c = '\x0c'

/-- Worker for Python `str.split()`: split on runs of whitespace, never
producing empty words.  `cur` is the current word accumulated in reverse. -/
def splitWsAux : List Char → List Char → List (List Char)
  | [], [] => []
  | [], cur => [cur.reverse]
  | c :: cs, cur =>
    if isPyWs c then
      match cur with
      | [] => splitWsAux cs []
      | _ => cur.reverse :: splitWsAux cs []
    else splitWsAux cs (c :: cur)

/-- Python `str.split()` with no arguments. -/
def pySplit (s : String) : List String :=
  (splitWsAux s.data []).map String.mk

/-- Model of `clean_corpus_word`: lower-case the word. -/
def clean_corpus_word (w : String) : String :=
  String.mk (w.data.map Char.toLower)

/-- The token list computed by the `tokens_feature` decorator:
`map(clean_corpus_word, clean_edu_text(edu.text).split())`. -/
def edu_tokens (e : Edu) : List String :=
  (pySplit (clean_edu_text e.text)).map clean_corpus_word

/-- Model of `feat_start`: text span start. -/
def feat_start (e : Edu) : Val := .vInt e.charStart

/-- Model of `feat_end`: text span end. -/
def feat_end (e : Edu) : Val := .vInt e.charEnd

/-- Model of `feat_id`: unique identifier for the EDU. -/
def feat_id (e : Edu) : Val := .vStr e.ident

/-- Model of `word_first`: first token of the EDU text, `None` if there are no tokens. -/
def word_first (e : Edu) : Val :=
  match edu_tokens e with
  | [] => .vNone
  | t :: _ => .vStr t

/-- Model of `word_last`: last token of the EDU text, `None` if there are no tokens. -/
def word_last (e : Edu) : Val :=
  match (edu_tokens e).getLast? with
  | none => .vNone
  | some t => .vStr t

/-- Model of `num_tokens`: number of tokens in the EDU text. -/
def num_tokens (e : Edu) : Val := .vInt (edu_tokens e).length

/-- Model of `num_edus_between`: `abs(edu2.num - edu1.num) - 1`. -/
def num_edus_between (e1 e2 : Edu) : Int :=
  |e2.num - e1.num| - 1

/-- Modelled from the spec: the per-document context (`current`) seen by pair
features.  `feat_grouping` reports the source-document identifier through the
external `id_to_path` helper, which is not under `src/`, so the document
identifier is carried as an opaque string. -/
structure Current where
  docId : String
deriving DecidableEq, Repr

/-- Model of `feat_grouping`: which file in the corpus this pair appears in. -/
def feat_grouping (cur : Current) (_ _ : Edu) : Val := .vStr cur.docId

/-- The value store of a key group: Python dict from key name to value. -/
abbrev Store := String → Option Val

/-- The empty store (a freshly constructed key group). -/
def Store.empty : Store := fun _ => none

/-- Write one entry of a store (`vec[key.name] = value`). -/
def Store.set (s : Store) (k : String) (v : Val) : Store :=
  fun n => if n = k then some v else s n

/-- A `MagicKey` over a single EDU: a name (the wrapped function's name) and
the lifted feature function `(context, edu) -> value`. -/
structure SingleKey where
  name : String
  fn : Current → Edu → Val

/-- A `MagicKey` over an EDU pair. -/
structure PairKey where
  name : String
  fn : Current → Edu → Edu → Val

/-- Keys of `SingleEduSubgroup_Meta`, in declaration order.  The `fun _ e`
lifting mirrors the `edu_feature` decorator dropping the context. -/
def metaKeys : List SingleKey :=
  [⟨"feat_id", fun _ e => feat_id e⟩,
   ⟨"feat_start", fun _ e => feat_start e⟩,
   ⟨"feat_end", fun _ e => feat_end e⟩]

/-- Keys of `SingleEduSubgroup_Text`, in declaration order. -/
def textKeys : List SingleKey :=
  [⟨"word_first", fun _ e => word_first e⟩,
   ⟨"word_last", fun _ e => word_last e⟩,
   ⟨"num_tokens", fun _ e => num_tokens e⟩]

/-- The sub-groups of the merged `SingleEduKeys`: description (the class
docstring) and keys, in the order assembled by `SingleEduKeys.__init__`. -/
def singleEduGroups : List (String × List SingleKey) :=
  [("Basic EDU-identification features", metaKeys),
   ("Properties of the EDU text itself", textKeys)]

/-- All keys of the merged `SingleEduKeys`, in order. -/
def singleEduAllKeys : List SingleKey := metaKeys ++ textKeys

/-- The loop body of `_magic_fill`: write every key's computed value into the
store under the key's name. -/
def writeKeys (keys : List SingleKey) (cur : Current) (e : Edu) (s : Store) :
    Store :=
  keys.foldl (fun s k => s.set k.name (k.fn cur e)) s

/-- Model of `SingleEduSubgroup._magic_fill`: `vec = self if target is None else target`,
then write every key into `vec`.  Returns the new receiver store and the new
target store. -/
def magic_fill (keys : List SingleKey) (cur : Current) (e : Edu)
    (self : Store) (target : Option Store) : Store × Option Store :=
  match target with
  | none => (writeKeys keys cur e self, none)
  | some t => (self, some (writeKeys keys cur e t))

/-- Model of `SingleEduKeys.fill`: `vec = self if target is None else target`, then let
every sub-group fill `vec` in order. -/
def singleEduFill (cur : Current) (e : Edu)
    (self : Store) (target : Option Store) : Store × Option Store :=
  match target with
  | none => (singleEduGroups.foldl (fun v g => writeKeys g.2 cur e v) self, none)
  | some t => (self, some (singleEduGroups.foldl (fun v g => writeKeys g.2 cur e v) t))

/-- Keys of `PairSubGroup_Core`. -/
def coreKeys : List PairKey :=
  [⟨"feat_grouping", feat_grouping⟩]

/-- Keys of `PairSubgroup_Gap`; the lifting mirrors `edu_pair_feature`. -/
def gapKeys : List PairKey :=
  [⟨"num_edus_between", fun _ e1 e2 => .vInt (num_edus_between e1 e2)⟩]

/-- The sub-groups of the merged `PairKeys` (descriptions from the source), in
the order assembled by `PairKeys.__init__`. -/
def pairGroups : List (String × List PairKey) :=
  [("core features", coreKeys),
   ("the gap between EDUs", gapKeys)]

/-- All pair-level keys in order. -/
def pairAllKeys : List PairKey := coreKeys ++ gapKeys

/-- Write every pair key's computed value into the store
(`PairSubgroup._magic_fill` loop body). -/
def writePairKeys (keys : List PairKey) (cur : Current) (e1 e2 : Edu)
    (s : Store) : Store :=
  keys.foldl (fun s k => s.set k.name (k.fn cur e1 e2)) s

/-- A filled `PairKeys` record: the pair-level value store plus the two
single-EDU sub-vectors (references into the per-document cache). -/
structure PairKeys where
  store : Store
  edu1 : Store
  edu2 : Store

/-- Python dict insert: update the entry in place if the key is present
(a dict built by inserts holds each key at most once), else append. -/
def pyDictInsert {α β : Type} [DecidableEq α] :
    List (α × β) → α → β → List (α × β)
  | [], k, v => [(k, v)]
  | p :: ps, k, v => if p.1 = k then (k, v) :: ps else p :: pyDictInsert ps k v

/-- Python dict membership (`k in d`). -/
def pyDictMem {α β : Type} [DecidableEq α] : List (α × β) → α → Bool
  | [], _ => false
  | p :: ps, k => if p.1 = k then true else pyDictMem ps k

/-- Python dict lookup (`d[k]`), `none` standing for a raised `KeyError`. -/
def pyDictGet {α β : Type} [DecidableEq α] : List (α × β) → α → Option β
  | [], _ => none
  | p :: ps, k => if p.1 = k then some p.2 else pyDictGet ps k

/-- Model of `PairKeys.fill`: look both EDUs up in the single-EDU feature cache
(`vec.edu1 = self.sf_cache[edu1]`, a lookup that raises `KeyError` — here
`none` — when the unit is absent), then let the pair-level sub-groups fill
the store.  The freshly constructed vector starts with an empty store. -/
def PairKeys.fill (cache : List (Edu × Store)) (cur : Current) (e1 e2 : Edu) :
    Option PairKeys :=
  match pyDictGet cache e1 with
  | none => none
  | some v1 =>
    match pyDictGet cache e2 with
    | none => none
    | some v2 =>
      some { store := pairGroups.foldl (fun s g => writePairKeys g.2 cur e1 e2 s) Store.empty,
             edu1 := v1,
             edu2 := v2 }

/-- Header names of the merged `SingleEduKeys` (`csv_headers` of the base
class: key names in declaration order across sub-groups). -/
def singleHeaders : List String := singleEduAllKeys.map (·.name)

/-- Model of `csv_values` of a single-EDU sub-vector: the stored value of every key, in
header order. -/
def singleCsvValues (v : Store) : List (Option Val) :=
  singleEduAllKeys.map (fun k => v k.name)

/-- Pair-level header names (`MergedKeyGroup.csv_headers` of `PairKeys`'s own
groups). -/
def pairLevelHeaders : List String := pairAllKeys.map (·.name)

/-- Pair-level `csv_values` of a pair store. -/
def pairLevelCsvValues (s : Store) : List (Option Val) :=
  pairAllKeys.map (fun k => s k.name)

/-- Model of `PairKeys.csv_headers`: the pair-level headers, then the first sub-vector's
headers suffixed `_EDU1`, then the second's suffixed `_EDU2`. -/
def PairKeys.csvHeaders (_ : PairKeys) : List String :=
  pairLevelHeaders ++ singleHeaders.map (· ++ "_EDU1")
    ++ singleHeaders.map (· ++ "_EDU2")

/-- Model of `PairKeys.csv_values`: pair-level values, then the two sub-vectors'
values. -/
def PairKeys.csvValues (pk : PairKeys) : List (Option Val) :=
  pairLevelCsvValues pk.store ++ singleCsvValues pk.edu1
    ++ singleCsvValues pk.edu2

/-- Modelled from the spec: `MergedKeyGroup.help_text` (in
`educe.learning.keys`, which is not under `src/`) renders each sub-group's
description followed by its header names. -/
def mergedHelpText (gs : List (String × List String)) : String :=
  String.intercalate "\n"
    (gs.map (fun g => g.1 ++ "\n  " ++ String.intercalate " " g.2))

/-- Help text of `SingleEduKeys` (structure-determined, identical for `edu1`
and `edu2`). -/
def singleEduHelpText : String :=
  mergedHelpText (singleEduGroups.map (fun g => (g.1, g.2.map (·.name))))

/-- Help text of the pair-level groups of `PairKeys`. -/
def pairLevelHelpText : String :=
  mergedHelpText (pairGroups.map (fun g => (g.1, g.2.map (·.name))))

/-- Model of `PairKeys.help_text`: the source joins the pair-level help, a blank line
and `self.edu1.help_text()` — the second sub-vector's help is not rendered. -/
def PairKeys.helpText (_ : PairKeys) : String :=
  String.intercalate "\n" [pairLevelHelpText, "", singleEduHelpText]

/-- Modelled from the spec: the spec's reading of `help_text`, appending BOTH
unit sub-vectors' help after the pair-level help.  Kept separate from
`PairKeys.helpText` (the source behaviour) for comparison. -/
def pairHelpTextSpec (_ : PairKeys) : String :=
  String.intercalate "\n" [pairLevelHelpText, "", singleEduHelpText, singleEduHelpText]

/-- A discourse dependency tree: every node carries the EDU of its head
(`treenode(t).edu`) and its own relation tag (`treenode(t).rel`), plus its
child subtrees. -/
inductive DepTree where
  | node : Edu → String → List DepTree → DepTree

/-- The EDU at a node. -/
def DepTree.edu : DepTree → Edu
  | .node e _ _ => e

/-- The relation tag at a node. -/
def DepTree.rel : DepTree → String
  | .node _ r _ => r

/-- The children of a node. -/
def DepTree.children : DepTree → List DepTree
  | .node _ _ cs => cs

/-- All subtrees of a forest, one per node, parents before their children. -/
def subtreesF : List DepTree → List DepTree
  | [] => []
  | .node e r cs :: ts => .node e r cs :: (subtreesF cs ++ subtreesF ts)
termination_by l => sizeOf l

/-- Modelled from the spec: `for subtree in dtree` visits every node of the
dependency tree (the dependency-tree class of `educe.rst_dt.deptree` is not
under `src/`; the spec says every node of the tree contributes the edges to
its direct children). -/
def DepTree.subtrees (t : DepTree) : List DepTree := subtreesF [t]

/-- The edges contributed by one node of the tree: for every direct child, the
key `(parent_edu, child_edu)` with the child's own relation tag. -/
def nodeEdges : DepTree → List ((Edu × Edu) × String)
  | .node e _ cs => cs.map (fun c => ((e, c.edu), c.rel))

/-- Model of `simplify_deptree`: boil a dependency tree down to a dictionary from
`(edu, edu)` to rel, inserting every node's child edges in visit order. -/
def simplify_deptree (t : DepTree) : List ((Edu × Edu) × String) :=
  t.subtrees.foldl
    (fun d st => (nodeEdges st).foldl (fun d p => pyDictInsert d p.1 p.2) d) []

/-- All child edges of a tree in visit order (the insertion order of
`simplify_deptree`). -/
def allDepEdges (t : DepTree) : List ((Edu × Edu) × String) :=
  t.subtrees.flatMap nodeEdges

/-- The class label attached by `ClassKeyGroup.set_class`. -/
inductive Label where
  | ofBool : Bool → Label
  | ofStr : String → Label
deriving DecidableEq, Repr

/-- A record yielded by the extraction generator: in live mode the bare
`PairKeys` vector, in corpus mode a `ClassKeyGroup` wrapping the vector with a
class label. -/
inductive OutRec where
  | plain : PairKeys → OutRec
  | labeled : PairKeys → Label → OutRec

/-- Model of `itertools.product(edus, edus)` in loop order. -/
def orderedPairs (edus : List Edu) : List (Edu × Edu) :=
  edus.flatMap (fun a => edus.map (fun b => (a, b)))

/-- The ordered pairs actually processed: the product minus the self-pairs
skipped by `if edu1 == edu2: continue`. -/
def distinctPairs (edus : List Edu) : List (Edu × Edu) :=
  (orderedPairs edus).filter (fun p => !(p.1 == p.2))

/-- The per-pair loop of `extract_pair_features`, transcribed statement by
statement.  `prev` holds the current values of the locals
`(pairs_vec, rels_vec)` (`none` while they are still unassigned); the final
unconditional `yield pairs_vec, rels_vec` of the source sits OUTSIDE the
`else` branch, so in live mode it runs right after `yield vec, vec` and, the
locals never having been assigned, raises `UnboundLocalError`.  The result is
the list of yielded records together with the name of the exception that ends
the generator, if any. -/
def extractLoop (live : Bool) (cur : Current)
    (relations : List ((Edu × Edu) × String)) (cache : List (Edu × Store)) :
    List (Edu × Edu) → Option (OutRec × OutRec) → List (OutRec × OutRec) →
    List (OutRec × OutRec) × Option String
  | [], _, out => (out, none)
  | (e1, e2) :: rest, prev, out =>
    if e1 = e2 then extractLoop live cur relations cache rest prev out
    else
      match PairKeys.fill cache cur e1 e2 with
      | none => (out, some "KeyError")
      | some vec =>
        if live then
          match prev with
          | none => (out ++ [(.plain vec, .plain vec)], some "UnboundLocalError")
          | some pv =>
            extractLoop live cur relations cache rest (some pv)
              (out ++ [(.plain vec, .plain vec), pv])
        else
          let relLabel : String :=
            match pyDictGet relations (e1, e2) with
            | some r => r
            | none => "UNRELATED"
          let pv : OutRec × OutRec :=
            (.labeled vec (.ofBool (pyDictMem relations (e1, e2))),
             .labeled vec (.ofStr relLabel))
          extractLoop live cur relations cache rest (some pv) (out ++ [pv])

/-- The per-document relation table:
`relations = simplify_deptree(current.deptree) if not live else {}`. -/
def docRelations (live : Bool) (t : DepTree) : List ((Edu × Edu) × String) :=
  if live then [] else simplify_deptree t

/-- The per-document single-EDU feature cache: for every EDU, a fresh
`SingleEduKeys` filled against the EDU. -/
def buildCache (cur : Current) (edus : List Edu) : List (Edu × Store) :=
  edus.foldl
    (fun c e => pyDictInsert c e (singleEduFill cur e Store.empty none).1) []

/-- The body of `extract_pair_features` for one corpus document (the source
wraps this in a loop over the corpus): build the relation table and the
single-EDU cache, then run the pair loop over the full product of the EDU
list with itself. -/
def extract_pair_features (live : Bool) (cur : Current) (dtree : DepTree)
    (edus : List Edu) : List (OutRec × OutRec) × Option String :=
  extractLoop live cur (docRelations live dtree) (buildCache cur edus)
    (orderedPairs edus) none []

/-- Model of the sort `sorted(vocabulary.items(), key=lambda x: x[1])`: the vocabulary entries
ordered by index. -/
def vocabSorted (voc : List (String × Nat)) : List (String × Nat) :=
  List.insertionSort (fun a b => a.2 ≤ b.2) voc

/-- The (name, recorded index) content of the dump: libsvm feature ids are
one-based, so the recorded index is `feat_idx + 1`. -/
def dumpPairs (voc : List (String × Nat)) : List (String × Nat) :=
  (vocabSorted voc).map (fun p => (p.1, p.2 + 1))

/-- Model of `_dump_vocabulary`: the lines written, `'{fn}\t{fx}\n'` without the
trailing newline, in the order they are written. -/
def vocabLines (voc : List (String × Nat)) : List String :=
  (vocabSorted voc).map (fun p => p.1 ++ "\t" ++ toString (p.2 + 1))

/-- The record pair produced in corpus mode for one processed pair: the filled
`PairKeys` vector wrapped in two `ClassKeyGroup`s, the attachment copy
labelled with `epair in relations` and the relation copy with
`relations[epair] if epair in relations else 'UNRELATED'`.  The default branch
is unreachable whenever the cache covers both units. -/
def corpusRec (cur : Current) (relations : List ((Edu × Edu) × String))
    (cache : List (Edu × Store)) (p : Edu × Edu) : OutRec × OutRec :=
  match PairKeys.fill cache cur p.1 p.2 with
  | none => (.plain ⟨Store.empty, Store.empty, Store.empty⟩,
             .plain ⟨Store.empty, Store.empty, Store.empty⟩)
  | some vec =>
    (.labeled vec (.ofBool (pyDictMem relations p)),
     .labeled vec (.ofStr (match pyDictGet relations p with
                           | some r => r
                           | none => "UNRELATED")))

/-- A concrete sample document: three EDUs in document order. -/
def eW1 : Edu := ⟨1, "Alpha leads.", 0, 12, "doc1_e1"⟩

/-- Second sample EDU. -/
def eW2 : Edu := ⟨2, "beta follows,<P>", 13, 29, "doc1_e2"⟩

/-- Third sample EDU. -/
def eW3 : Edu := ⟨3, "\"gamma ends.", 30, 42, "doc1_e3"⟩

/-- Sample document context. -/
def curW : Current := ⟨"doc1"⟩

/-- Sample dependency tree over the three EDUs: the root's child carries
relation `"elaboration"`, the grandchild `"background"`. -/
def depW : DepTree :=
  .node eW1 "ROOT" [.node eW2 "elaboration" [.node eW3 "background" []]]

/-- The filled pair vector for `(eW1, eW2)` over the three-EDU cache. -/
def vecW12 : PairKeys :=
  (PairKeys.fill (buildCache curW [eW1, eW2, eW3]) curW eW1 eW2).getD
    ⟨Store.empty, Store.empty, Store.empty⟩

/-- The filled pair vector for `(eW1, eW2)` over the two-EDU cache. -/
def vecLive : PairKeys :=
  (PairKeys.fill (buildCache curW [eW1, eW2]) curW eW1 eW2).getD
    ⟨Store.empty, Store.empty, Store.empty⟩

/-! Helper lemmas about key-group stores. -/

theorem writeKeys_lookup_of_not_mem (keys : List SingleKey) (cur : Current)
    (e : Edu) (n : String) (h : n ∉ keys.map SingleKey.name) :
    ∀ s : Store, writeKeys keys cur e s n = s n := by
  induction keys with
  | nil => intro s; rfl
  | cons k ks ih =>
    intro s
    simp only [List.map_cons, List.mem_cons, not_or] at h
    have h2 := ih h.2 (s.set k.name (k.fn cur e))
    show writeKeys ks cur e (s.set k.name (k.fn cur e)) n = s n
    rw [h2]
    simp [Store.set, h.1]

theorem writeKeys_lookup (keys : List SingleKey) (cur : Current) (e : Edu)
    (hnd : (keys.map SingleKey.name).Nodup) :
    ∀ s : Store, ∀ k ∈ keys, writeKeys keys cur e s k.name = some (k.fn cur e) := by
  induction keys with
  | nil => intro s k hk; cases hk
  | cons k0 ks ih =>
    intro s k hk
    simp only [List.map_cons, List.nodup_cons] at hnd
    rcases List.mem_cons.mp hk with rfl | hk'
    · show writeKeys ks cur e (s.set k.name (k.fn cur e)) k.name = some (k.fn cur e)
      rw [writeKeys_lookup_of_not_mem ks cur e k.name hnd.1]
      simp [Store.set]
    · show writeKeys ks cur e (s.set k0.name (k0.fn cur e)) k.name = some (k.fn cur e)
      exact ih hnd.2 _ k hk'

/-! Helper lemmas about the Python-dict model. -/

theorem pyDictGet_insert_self {α β : Type} [DecidableEq α] :
    ∀ (d : List (α × β)) (k : α) (v : β),
      pyDictGet (pyDictInsert d k v) k = some v := by
  intro d k v
  induction d with
  | nil => simp [pyDictInsert, pyDictGet]
  | cons p ps ih =>
    by_cases h : p.1 = k <;> simp [pyDictInsert, pyDictGet, h, ih]

theorem pyDictGet_insert_ne {α β : Type} [DecidableEq α]
    (k e : α) (v : β) (hne : e ≠ k) :
    ∀ d : List (α × β), pyDictGet (pyDictInsert d k v) e = pyDictGet d e := by
  intro d
  have hke : k ≠ e := Ne.symm hne
  induction d with
  | nil => simp [pyDictInsert, pyDictGet, hke]
  | cons p ps ih =>
    by_cases h : p.1 = k
    · subst h
      simp [pyDictInsert, pyDictGet, hke]
    · simp [pyDictInsert, pyDictGet, h, ih]

theorem pyDictInsert_not_key {α β : Type} [DecidableEq α] (k : α) (v : β) :
    ∀ d : List (α × β), (∀ q ∈ d, q.1 ≠ k) →
      pyDictInsert d k v = d ++ [(k, v)] := by
  intro d
  induction d with
  | nil => intro _; rfl
  | cons q qs ih =>
    intro h
    have hq : q.1 ≠ k := h q (by simp)
    simp [pyDictInsert, hq, ih (fun x hx => h x (by simp [hx]))]

theorem pyDictGet_eq_some_iff {α β : Type} [DecidableEq α] :
    ∀ l : List (α × β), (l.map Prod.fst).Nodup →
      ∀ (k : α) (r : β), (pyDictGet l k = some r ↔ (k, r) ∈ l) := by
  intro l
  induction l with
  | nil => intro _ k r; simp [pyDictGet]
  | cons p ps ih =>
    intro hnd k r
    simp only [List.map_cons, List.nodup_cons] at hnd
    by_cases h : p.1 = k
    · subst h
      show (if p.1 = p.1 then some p.2 else pyDictGet ps p.1) = some r
          ↔ (p.1, r) ∈ p :: ps
      rw [if_pos rfl]
      constructor
      · intro hr
        cases hr
        exact List.mem_cons_self _ _
      · intro hmem
        rcases List.mem_cons.mp hmem with he | hm
        · exact congrArg some (congrArg Prod.snd he).symm
        · exact absurd (List.mem_map.mpr ⟨(p.1, r), hm, rfl⟩) hnd.1
    · show (if p.1 = k then some p.2 else pyDictGet ps k) = some r
          ↔ (k, r) ∈ p :: ps
      rw [if_neg h, ih hnd.2 k r, List.mem_cons]
      constructor
      · exact Or.inr
      · rintro (he | hm)
        · exact absurd (congrArg Prod.fst he).symm h
        · exact hm

/-- C4: the gap feature equals the absolute index difference minus one, which
for units in document order is the number of indices strictly between the two,
and the feature is symmetric in its two arguments. -/
theorem num_edus_between_spec (u1 u2 : Edu) :
    num_edus_between u1 u2 = |u2.num - u1.num| - 1
    ∧ num_edus_between u1 u2 = num_edus_between u2 u1
    ∧ (u1.num < u2.num →
      num_edus_between u1 u2 = ((Finset.Ioo u1.num u2.num).card : Int)) := by
  refine ⟨rfl, by simp [num_edus_between, abs_sub_comm], fun h => ?_⟩
  rw [num_edus_between, Int.card_Ioo_of_lt _ _ h,
    abs_of_pos (by omega : (0 : Int) < u2.num - u1.num)]

/-- Witness for C4 at concrete units with indices 1 and 3. -/
theorem num_edus_between_spec_witness :
    (⟨1, "", 0, 0, ""⟩ : Edu).num < (⟨3, "", 0, 0, ""⟩ : Edu).num
    ∧ num_edus_between ⟨1, "", 0, 0, ""⟩ ⟨3, "", 0, 0, ""⟩
      = ((Finset.Ioo (1 : Int) 3).card : Int) :=
  ⟨by decide,
   (num_edus_between_spec ⟨1, "", 0, 0, ""⟩ ⟨3, "", 0, 0, ""⟩).2.2 (by decide)⟩

/-- C7: the token pipeline strips trailing `'.'`, `','` and `"<P>"` markup and
a single leading double-quote, lower-cases and splits on whitespace, so
`"Hello there.<P>"` yields `["hello", "there"]` and `",,,"` yields no tokens;
whenever a unit's text normalises to zero tokens, `word_first` and `word_last`
return the missing-value sentinel (`None`) instead of raising. -/
theorem clean_text_tokens_spec :
    edu_tokens ⟨0, "Hello there.<P>", 0, 0, ""⟩ = ["hello", "there"]
    ∧ edu_tokens ⟨0, "\"Hello there.", 0, 0, ""⟩ = ["hello", "there"]
    ∧ edu_tokens ⟨0, ",,,", 0, 0, ""⟩ = []
    ∧ ∀ e : Edu, edu_tokens e = [] →
      word_first e = Val.vNone ∧ word_last e = Val.vNone := by
  refine ⟨rfl, rfl, rfl, fun e h => ⟨?_, ?_⟩⟩
  · unfold word_first
    rw [h]
  · unfold word_last
    rw [h]
    rfl

/-- Witness for C7's zero-token clause at the text `",,"`. -/
theorem clean_text_tokens_spec_witness :
    edu_tokens ⟨0, ",,", 0, 0, ""⟩ = []
    ∧ word_first ⟨0, ",,", 0, 0, ""⟩ = Val.vNone
    ∧ word_last ⟨0, ",,", 0, 0, ""⟩ = Val.vNone := by
  have h : edu_tokens ⟨0, ",,", 0, 0, ""⟩ = [] := rfl
  exact ⟨h, (clean_text_tokens_spec.2.2.2 _ h).1, (clean_text_tokens_spec.2.2.2 _ h).2⟩

/-- C10: `_magic_fill` and `SingleEduKeys.fill` called with an explicit target
write every declared key's computed value into the target under the key's
name and leave the receiver's own store unchanged; the receiver is written
only when the target is `none`. -/
theorem fill_target_frame (keys : List SingleKey) (cur : Current) (e : Edu)
    (self t : Store) (hnd : (keys.map SingleKey.name).Nodup) :
    (magic_fill keys cur e self (some t)).1 = self
    ∧ (magic_fill keys cur e self (some t)).2 = some (writeKeys keys cur e t)
    ∧ (∀ k ∈ keys, writeKeys keys cur e t k.name = some (k.fn cur e))
    ∧ (magic_fill keys cur e self none).1 = writeKeys keys cur e self
    ∧ (singleEduFill cur e self (some t)).1 = self
    ∧ (singleEduFill cur e self (some t)).2
        = some (writeKeys textKeys cur e (writeKeys metaKeys cur e t))
    ∧ (∀ k ∈ singleEduAllKeys,
        writeKeys textKeys cur e (writeKeys metaKeys cur e t) k.name
          = some (k.fn cur e)) := by
  have happ : writeKeys singleEduAllKeys cur e t
      = writeKeys textKeys cur e (writeKeys metaKeys cur e t) := by
    simp [singleEduAllKeys, writeKeys, List.foldl_append]
  refine ⟨rfl, rfl, writeKeys_lookup keys cur e hnd t, rfl, rfl, rfl, ?_⟩
  rw [← happ]
  exact writeKeys_lookup singleEduAllKeys cur e (by decide) t

/-- Witness for C10 with the meta key group, at an empty receiver and target. -/
theorem fill_target_frame_witness :
    (metaKeys.map SingleKey.name).Nodup
    ∧ (magic_fill metaKeys ⟨"d"⟩ ⟨0, "", 0, 0, ""⟩ Store.empty
        (some Store.empty)).1 = Store.empty :=
  ⟨by decide,
   (fill_target_frame metaKeys ⟨"d"⟩ ⟨0, "", 0, 0, ""⟩ Store.empty Store.empty
     (by decide)).1⟩

/-- C9: `PairKeys.fill` on a unit that is missing from the per-document
single-unit cache fails immediately (the dict lookup raises, modelled as
`none`): no default is substituted and no record is produced. -/
theorem pairKeys_fill_missing (cache : List (Edu × Store)) (cur : Current)
    (e1 e2 : Edu)
    (h : pyDictGet cache e1 = none ∨ pyDictGet cache e2 = none) :
    PairKeys.fill cache cur e1 e2 = none := by
  rcases h with h | h
  · simp [PairKeys.fill, h]
  · cases h1 : pyDictGet cache e1 <;> simp [PairKeys.fill, h, h1]

/-- Witness for C9 at the empty cache. -/
theorem pairKeys_fill_missing_witness :
    pyDictGet ([] : List (Edu × Store)) ⟨0, "", 0, 0, ""⟩ = none
    ∧ PairKeys.fill [] ⟨"d"⟩ ⟨0, "", 0, 0, ""⟩ ⟨1, "", 0, 0, ""⟩ = none :=
  ⟨rfl, pairKeys_fill_missing [] ⟨"d"⟩ ⟨0, "", 0, 0, ""⟩ ⟨1, "", 0, 0, ""⟩
    (Or.inl rfl)⟩

/-! Helper lemmas about the extraction driver. -/

theorem buildCache_foldl_lookup (cur : Current) :
    ∀ (edus : List Edu) (c0 : List (Edu × Store)) (e : Edu),
      pyDictGet (edus.foldl
          (fun c x => pyDictInsert c x (singleEduFill cur x Store.empty none).1) c0) e
        = if e ∈ edus then some (singleEduFill cur e Store.empty none).1
          else pyDictGet c0 e := by
  intro edus
  induction edus with
  | nil => intro c0 e; simp
  | cons x xs ih =>
    intro c0 e
    rw [List.foldl_cons, ih]
    by_cases hx : e ∈ xs
    · simp [hx]
    · by_cases hxe : e = x
      · subst hxe
        simp [hx, pyDictGet_insert_self]
      · simp [hx, hxe, pyDictGet_insert_ne x e _ hxe]

theorem buildCache_lookup (cur : Current) (edus : List Edu) (e : Edu)
    (he : e ∈ edus) :
    pyDictGet (buildCache cur edus) e
      = some (singleEduFill cur e Store.empty none).1 := by
  rw [buildCache, buildCache_foldl_lookup cur edus [] e, if_pos he]

theorem pairKeys_fill_buildCache (cur : Current) (edus : List Edu)
    (e1 e2 : Edu) (h1 : e1 ∈ edus) (h2 : e2 ∈ edus) :
    PairKeys.fill (buildCache cur edus) cur e1 e2
      = some { store := pairGroups.foldl
                 (fun s g => writePairKeys g.2 cur e1 e2 s) Store.empty,
               edu1 := (singleEduFill cur e1 Store.empty none).1,
               edu2 := (singleEduFill cur e2 Store.empty none).1 } := by
  rw [PairKeys.fill, buildCache_lookup cur edus e1 h1,
    buildCache_lookup cur edus e2 h2]

theorem fill_isSome_of_mem_pairs (cur : Current) (edus : List Edu)
    (p : Edu × Edu) (hp : p ∈ orderedPairs edus) :
    (PairKeys.fill (buildCache cur edus) cur p.1 p.2).isSome := by
  simp only [orderedPairs, List.mem_flatMap, List.mem_map] at hp
  obtain ⟨a, ha, b, hb, rfl⟩ := hp
  rw [pairKeys_fill_buildCache cur edus a b ha hb]
  rfl

theorem extractLoop_corpus (cur : Current)
    (relations : List ((Edu × Edu) × String)) (cache : List (Edu × Store)) :
    ∀ (pairs : List (Edu × Edu)) (prev : Option (OutRec × OutRec))
      (out : List (OutRec × OutRec)),
      (∀ p ∈ pairs, (PairKeys.fill cache cur p.1 p.2).isSome) →
      extractLoop false cur relations cache pairs prev out
        = (out ++ (pairs.filter (fun p => !(p.1 == p.2))).map
            (corpusRec cur relations cache), none) := by
  intro pairs
  induction pairs with
  | nil => intro prev out _; simp [extractLoop]
  | cons p ps ih =>
    intro prev out h
    obtain ⟨e1, e2⟩ := p
    have hps : ∀ q ∈ ps, (PairKeys.fill cache cur q.1 q.2).isSome :=
      fun q hq => h q (List.mem_cons_of_mem _ hq)
    by_cases he : e1 = e2
    · rw [extractLoop, if_pos he, ih prev out hps, List.filter_cons]
      simp [he]
    · obtain ⟨vec, hvec⟩ :=
        Option.isSome_iff_exists.mp (h (e1, e2) (List.mem_cons_self _ _))
      rw [extractLoop, if_neg he, hvec]
      show extractLoop false cur relations cache ps _ _ = _
      rw [ih _ _ hps, List.filter_cons]
      have hne : ((e1, e2).1 == (e1, e2).2) = false := by
        simp [he]
      simp only [hne, Bool.not_false, if_pos, List.map_cons, cond_true]
      rw [corpusRec, hvec, List.append_cons, List.append_assoc]
      simp

/-- C2: in corpus mode the driver yields, for every ordered pair of distinct
units, exactly one record pair: the attachment copy labelled with the Boolean
key-membership of the pair in the relation table and the relation copy
labelled with the table's relation string if present, else the sentinel
`"UNRELATED"`; no exception is raised. -/
theorem extract_corpus_mode (cur : Current) (t : DepTree) (edus : List Edu) :
    extract_pair_features false cur t edus
      = ((distinctPairs edus).map
          (corpusRec cur (simplify_deptree t) (buildCache cur edus)), none)
    ∧ ∀ p ∈ distinctPairs edus, ∀ vec : PairKeys,
        PairKeys.fill (buildCache cur edus) cur p.1 p.2 = some vec →
        corpusRec cur (simplify_deptree t) (buildCache cur edus) p
          = (.labeled vec (.ofBool (pyDictMem (simplify_deptree t) p)),
             .labeled vec (.ofStr
               (match pyDictGet (simplify_deptree t) p with
                | some r => r
                | none => "UNRELATED"))) := by
  constructor
  · rw [extract_pair_features]
    have hrel : docRelations false t = simplify_deptree t := by
      simp [docRelations]
    rw [hrel, extractLoop_corpus cur (simplify_deptree t) (buildCache cur edus)
      (orderedPairs edus) none []
      (fun p hp => fill_isSome_of_mem_pairs cur edus p hp)]
    rfl
  · intro p _ vec hvec
    rw [corpusRec, hvec]

/-- C1 (evaluating the code at the failing input): in live mode the relation
table is indeed empty, and for a two-unit document the generator yields the
unlabelled record `(vec, vec)` — the same filled vector twice — for the first
pair, but then the unconditional trailing `yield pairs_vec, rels_vec`, whose
locals were never assigned in live mode, raises `UnboundLocalError` instead
of moving on to the next pair. -/
theorem live_mode_crash :
    docRelations true depW = []
    ∧ (extract_pair_features true curW depW [eW1, eW2]).1
        = [(.plain vecLive, .plain vecLive)]
    ∧ (extract_pair_features true curW depW [eW1, eW2]).2
        = some "UnboundLocalError" :=
  ⟨rfl, rfl, rfl⟩

/-- Witness for C2 at the three-EDU sample document and the pair
`(eW1, eW2)`. -/
theorem extract_corpus_mode_witness :
    (eW1, eW2) ∈ distinctPairs [eW1, eW2, eW3]
    ∧ PairKeys.fill (buildCache curW [eW1, eW2, eW3]) curW eW1 eW2 = some vecW12
    ∧ corpusRec curW (simplify_deptree depW) (buildCache curW [eW1, eW2, eW3])
        (eW1, eW2)
      = (.labeled vecW12
           (.ofBool (pyDictMem (simplify_deptree depW) (eW1, eW2))),
         .labeled vecW12
           (.ofStr (match pyDictGet (simplify_deptree depW) (eW1, eW2) with
                    | some r => r
                    | none => "UNRELATED"))) := by
  have hmem : (eW1, eW2) ∈ distinctPairs [eW1, eW2, eW3] := by decide
  have hfill : PairKeys.fill (buildCache curW [eW1, eW2, eW3]) curW eW1 eW2
      = some vecW12 := rfl
  exact ⟨hmem, hfill,
    (extract_corpus_mode curW depW [eW1, eW2, eW3]).2 (eW1, eW2) hmem vecW12 hfill⟩

/-! Helper lemmas for the pair enumeration count. -/

theorem filter_prod_snd (a : Edu) (inner : List Edu) :
    ((inner.map (fun b => (a, b))).filter (fun p => !(p.1 == p.2)))
      = (inner.filter (fun b => !(a == b))).map (fun b => (a, b)) := by
  induction inner with
  | nil => rfl
  | cons x xs ih =>
    by_cases h : a = x
    · subst h
      simp [List.filter_cons, ih]
    · simp [List.filter_cons, h, ih]

theorem length_filter_ne (a : Edu) :
    ∀ l : List Edu, l.Nodup → a ∈ l →
      (l.filter (fun b => !(a == b))).length = l.length - 1 := by
  intro l
  induction l with
  | nil => intro _ h; cases h
  | cons x xs ih =>
    intro hnd hmem
    simp only [List.nodup_cons] at hnd
    rcases List.mem_cons.mp hmem with rfl | hx
    · have hxs : xs.filter (fun b => !(a == b)) = xs := by
        apply List.filter_eq_self.mpr
        intro b hb
        simp only [Bool.not_eq_eq_eq_not, Bool.not_true, beq_eq_false_iff_ne,
          ne_eq]
        intro hab
        exact hnd.1 (hab ▸ hb)
      simp [List.filter_cons, hxs]
    · have hax : (a == x) = false := by
        simp only [beq_eq_false_iff_ne, ne_eq]
        intro hax
        exact hnd.1 (hax ▸ hx)
      have hlen : 1 ≤ xs.length := List.length_pos.mpr (List.ne_nil_of_mem hx)
      have h1 := ih hnd.2 hx
      simp [List.filter_cons, hax, h1]
      omega

theorem distinctPairs_length_aux (inner : List Edu) (hnd : inner.Nodup) :
    ∀ outer : List Edu, (∀ a ∈ outer, a ∈ inner) →
      ((outer.flatMap (fun a => inner.map (fun b => (a, b)))).filter
          (fun p => !(p.1 == p.2))).length
        = outer.length * (inner.length - 1) := by
  intro outer
  induction outer with
  | nil => intro _; simp
  | cons a os ih =>
    intro hsub
    rw [List.flatMap_cons, List.filter_append, List.length_append,
      filter_prod_snd, List.length_map,
      length_filter_ne a inner hnd (hsub a (List.mem_cons_self _ _)),
      ih (fun x hx => hsub x (List.mem_cons_of_mem _ hx)),
      List.length_cons]
    ring

theorem distinctPairs_mem_iff (edus : List Edu) (a b : Edu) :
    (a, b) ∈ distinctPairs edus ↔ (a ∈ edus ∧ b ∈ edus ∧ a ≠ b) := by
  simp only [distinctPairs, orderedPairs, List.mem_filter, List.mem_flatMap,
    List.mem_map, Prod.mk.injEq, Bool.not_eq_eq_eq_not, Bool.not_true,
    beq_eq_false_iff_ne, ne_eq]
  constructor
  · rintro ⟨⟨x, hx, y, hy, hxa, hyb⟩, hne⟩
    subst hxa
    subst hyb
    exact ⟨hx, hy, hne⟩
  · rintro ⟨ha, hb, hne⟩
    exact ⟨⟨a, ha, b, hb, rfl, rfl⟩, hne⟩

/-- C3: the pair-enumeration loop processes the full Cartesian product of the
unit list with itself minus the self-pairs — both orders of every pair of
distinct units, `N × (N − 1)` pairs in all — and in corpus mode the driver
accordingly emits exactly `N × (N − 1)` records. -/
theorem pair_enumeration_spec (edus : List Edu) (hnd : edus.Nodup) :
    (distinctPairs edus).length = edus.length * (edus.length - 1)
    ∧ (∀ a b : Edu, (a, b) ∈ distinctPairs edus ↔
        (a ∈ edus ∧ b ∈ edus ∧ a ≠ b))
    ∧ ∀ (cur : Current) (t : DepTree),
        (extract_pair_features false cur t edus).1.length
          = edus.length * (edus.length - 1) := by
  have hlen : (distinctPairs edus).length = edus.length * (edus.length - 1) :=
    distinctPairs_length_aux edus hnd edus (fun a ha => ha)
  refine ⟨hlen, distinctPairs_mem_iff edus, fun cur t => ?_⟩
  rw [extract_pair_features, extractLoop_corpus cur (docRelations false t)
    (buildCache cur edus) (orderedPairs edus) none []
    (fun p hp => fill_isSome_of_mem_pairs cur edus p hp)]
  simpa using hlen

/-- Witness for C3 at the three-EDU sample document. -/
theorem pair_enumeration_spec_witness :
    ([eW1, eW2, eW3] : List Edu).Nodup
    ∧ (distinctPairs [eW1, eW2, eW3]).length = 3 * 2 :=
  ⟨by decide, (pair_enumeration_spec [eW1, eW2, eW3] (by decide)).1⟩

/-- C5 (amended): on a filled pair vector, `csv_headers` returns the
pair-level headers, then the first sub-vector's headers suffixed `_EDU1`,
then the second's suffixed `_EDU2`; `csv_values` appends the two sub-vectors'
values, in the same order, after the pair-level values; but `help_text`
renders the pair-level help followed by only the FIRST unit sub-vector's help
(the second sub-vector's help is not appended). -/
theorem pairKeys_csv_spec (cache : List (Edu × Store)) (cur : Current)
    (e1 e2 : Edu) (pk : PairKeys)
    (h : PairKeys.fill cache cur e1 e2 = some pk) :
    pk.csvHeaders = pairLevelHeaders ++ singleHeaders.map (· ++ "_EDU1")
        ++ singleHeaders.map (· ++ "_EDU2")
    ∧ pk.csvValues = pairAllKeys.map (fun k => some (k.fn cur e1 e2))
        ++ singleCsvValues pk.edu1 ++ singleCsvValues pk.edu2
    ∧ pyDictGet cache e1 = some pk.edu1
    ∧ pyDictGet cache e2 = some pk.edu2
    ∧ pk.helpText
        = String.intercalate "\n" [pairLevelHelpText, "", singleEduHelpText] := by
  rw [PairKeys.fill] at h
  cases h1 : pyDictGet cache e1 with
  | none => rw [h1] at h; cases h
  | some v1 =>
    cases h2 : pyDictGet cache e2 with
    | none => rw [h1, h2] at h; cases h
    | some v2 =>
      rw [h1, h2] at h
      cases h
      exact ⟨rfl, rfl, rfl, rfl, rfl⟩

set_option maxRecDepth 4096 in
/-- Counterexample for C5 as stated: `help_text` does not append both unit
sub-vectors' help after the pair-level help — the output lacks the second
copy of the single-EDU help block. -/
theorem pairKeys_help_counterexample :
    PairKeys.helpText ⟨Store.empty, Store.empty, Store.empty⟩
      ≠ pairHelpTextSpec ⟨Store.empty, Store.empty, Store.empty⟩ := by
  decide

/-- Witness for C5 at the filled sample pair vector. -/
theorem pairKeys_csv_spec_witness :
    PairKeys.fill (buildCache curW [eW1, eW2, eW3]) curW eW1 eW2 = some vecW12
    ∧ vecW12.helpText
        = String.intercalate "\n" [pairLevelHelpText, "", singleEduHelpText] := by
  have hfill : PairKeys.fill (buildCache curW [eW1, eW2, eW3]) curW eW1 eW2
      = some vecW12 := rfl
  exact ⟨hfill, (pairKeys_csv_spec (buildCache curW [eW1, eW2, eW3]) curW eW1
    eW2 vecW12 hfill).2.2.2.2⟩

/-! Helper lemmas for the relation-table construction. -/

theorem foldl_pyDictInsert_flatMap {γ : Type}
    (f : γ → List ((Edu × Edu) × String)) :
    ∀ (l : List γ) (d0 : List ((Edu × Edu) × String)),
      l.foldl (fun d x => (f x).foldl (fun d p => pyDictInsert d p.1 p.2) d) d0
        = (l.flatMap f).foldl (fun d p => pyDictInsert d p.1 p.2) d0 := by
  intro l
  induction l with
  | nil => intro d0; rfl
  | cons x xs ih =>
    intro d0
    rw [List.foldl_cons, List.flatMap_cons, List.foldl_append, ih]

theorem pyDictFold_fresh {α β : Type} [DecidableEq α] :
    ∀ (l : List (α × β)) (d0 : List (α × β)),
      (∀ p ∈ l, ∀ q ∈ d0, p.1 ≠ q.1) → (l.map Prod.fst).Nodup →
      l.foldl (fun d p => pyDictInsert d p.1 p.2) d0 = d0 ++ l := by
  intro l
  induction l with
  | nil => intro d0 _ _; simp
  | cons p ps ih =>
    intro d0 hdisj hnd
    simp only [List.map_cons, List.nodup_cons] at hnd
    have hfresh : pyDictInsert d0 p.1 p.2 = d0 ++ [p] := by
      rw [pyDictInsert_not_key p.1 p.2 d0
        (fun q hq => Ne.symm (hdisj p (List.mem_cons_self _ _) q hq))]
    rw [List.foldl_cons, hfresh, ih (d0 ++ [p]) ?_ hnd.2]
    · simp
    · intro p' hp' q hq
      rcases List.mem_append.mp hq with hq0 | hqp
      · exact hdisj p' (List.mem_cons_of_mem _ hp') q hq0
      · rcases List.mem_singleton.mp hqp with rfl
        intro heq
        exact hnd.1 (heq ▸ List.mem_map.mpr ⟨p', hp', rfl⟩)

theorem simplify_eq_allDepEdges (t : DepTree)
    (hnd : ((allDepEdges t).map Prod.fst).Nodup) :
    simplify_deptree t = allDepEdges t := by
  rw [simplify_deptree, foldl_pyDictInsert_flatMap nodeEdges t.subtrees [],
    pyDictFold_fresh (t.subtrees.flatMap nodeEdges) []
      (fun p _ q hq => absurd hq (List.not_mem_nil q)) hnd]
  simp [allDepEdges]

theorem mem_allDepEdges_iff (t : DepTree) (p c : Edu) (r : String) :
    ((p, c), r) ∈ allDepEdges t
      ↔ ∃ st ∈ t.subtrees, ∃ ch ∈ st.children,
          st.edu = p ∧ ch.edu = c ∧ ch.rel = r := by
  simp only [allDepEdges, List.mem_flatMap]
  constructor
  · rintro ⟨st, hst, hmem⟩
    cases st with
    | node e r' cs =>
      simp only [nodeEdges, List.mem_map] at hmem
      obtain ⟨ch, hch, heq⟩ := hmem
      rw [Prod.mk.injEq, Prod.mk.injEq] at heq
      exact ⟨.node e r' cs, hst, ch, hch, heq.1.1, heq.1.2, heq.2⟩
  · rintro ⟨st, hst, ch, hch, he, hc, hr⟩
    refine ⟨st, hst, ?_⟩
    cases st with
    | node e r' cs =>
      simp only [nodeEdges, List.mem_map]
      have he' : e = p := he
      exact ⟨ch, hch, by rw [he', hc, hr]⟩

/-- C6: the relation table built by `simplify_deptree` contains the key
`(parent_unit, child_unit)` with the child's own relation tag for every node
of the dependency tree and every direct child of that node, and nothing else;
and in live mode the driver uses the empty table instead of calling it. -/
theorem simplify_deptree_spec (t : DepTree)
    (hnd : ((allDepEdges t).map Prod.fst).Nodup) :
    (∀ (p c : Edu) (r : String),
      pyDictGet (simplify_deptree t) (p, c) = some r ↔
        ∃ st ∈ t.subtrees, ∃ ch ∈ st.children,
          st.edu = p ∧ ch.edu = c ∧ ch.rel = r)
    ∧ ∀ t' : DepTree, docRelations true t' = [] := by
  refine ⟨fun p c r => ?_, fun t' => by simp [docRelations]⟩
  rw [simplify_eq_allDepEdges t hnd,
    pyDictGet_eq_some_iff (allDepEdges t) hnd (p, c) r,
    mem_allDepEdges_iff]

/-- Witness for C6 at the sample dependency tree: the root's child edge is
found in the table with its own relation tag. -/
theorem simplify_deptree_spec_witness :
    ((allDepEdges depW).map Prod.fst).Nodup
    ∧ pyDictGet (simplify_deptree depW) (eW1, eW2) = some "elaboration" := by
  have hedges : allDepEdges depW
      = [((eW1, eW2), "elaboration"), ((eW2, eW3), "background")] := by
    simp [allDepEdges, DepTree.subtrees, subtreesF, nodeEdges, DepTree.edu,
      DepTree.rel, depW]
  have hnd : ((allDepEdges depW).map Prod.fst).Nodup := by
    rw [hedges]
    decide
  refine ⟨hnd, ?_⟩
  apply ((simplify_deptree_spec depW hnd).1 eW1 eW2 "elaboration").mpr
  refine ⟨depW, ?_, .node eW2 "elaboration" [.node eW3 "background" []],
    ?_, rfl, rfl, rfl⟩
  · simp [DepTree.subtrees, subtreesF, depW]
  · simp [depW, DepTree.children]

/-- C8: the vocabulary serializer emits one line per entry, rendered
`name<TAB>(index+1)`, in ascending order of the recorded (one-based) index;
consequently the dumped entries, re-sorted by recorded index, reproduce the
original name-to-index mapping with every index shifted by exactly one. -/
theorem dump_vocabulary_spec (voc : List (String × Nat))
    (hnd : (voc.map Prod.snd).Nodup) :
    (vocabLines voc).length = voc.length
    ∧ vocabLines voc = (dumpPairs voc).map (fun p => p.1 ++ "\t" ++ toString p.2)
    ∧ List.Sorted (· < ·) ((dumpPairs voc).map Prod.snd)
    ∧ (∀ (n : String) (i : Nat), ((n, i) ∈ voc ↔ (n, i + 1) ∈ dumpPairs voc)) := by
  haveI hTot : IsTotal (String × Nat) (fun a b => a.2 ≤ b.2) :=
    ⟨fun a b => Nat.le_total a.2 b.2⟩
  haveI hTrans : IsTrans (String × Nat) (fun a b => a.2 ≤ b.2) :=
    ⟨fun a b c h1 h2 => Nat.le_trans h1 h2⟩
  have hperm : List.Perm (vocabSorted voc) voc := by
    unfold vocabSorted
    exact List.perm_insertionSort _ voc
  have hsorted : List.Pairwise (fun a b : String × Nat => a.2 ≤ b.2)
      (vocabSorted voc) := by
    unfold vocabSorted
    exact List.sorted_insertionSort _ voc
  refine ⟨?_, ?_, ?_, ?_⟩
  · rw [vocabLines, List.length_map, hperm.length_eq]
  · rw [vocabLines, dumpPairs, List.map_map]
    rfl
  · have hnd' : ((vocabSorted voc).map Prod.snd).Nodup :=
      (List.Perm.map Prod.snd hperm).nodup_iff.mpr hnd
    have hne : List.Pairwise (fun a b : String × Nat => a.2 ≠ b.2)
        (vocabSorted voc) := List.pairwise_map.mp hnd'
    have hlt : List.Pairwise (fun a b : String × Nat => a.2 < b.2)
        (vocabSorted voc) :=
      (hsorted.and hne).imp (fun h => lt_of_le_of_ne h.1 h.2)
    rw [dumpPairs, List.map_map]
    exact List.pairwise_map.mpr (hlt.imp (fun h => Nat.succ_lt_succ h))
  · intro n i
    constructor
    · intro h
      exact List.mem_map.mpr ⟨(n, i), hperm.mem_iff.mpr h, rfl⟩
    · intro h
      obtain ⟨q, hq, heq⟩ := List.mem_map.mp h
      obtain ⟨qn, qi⟩ := q
      rw [Prod.mk.injEq] at heq
      obtain ⟨h1, h2⟩ := heq
      have hqi : qi = i := by omega
      subst h1
      subst hqi
      exact hperm.mem_iff.mp hq

/-- Witness for C8 at a two-entry vocabulary. -/
theorem dump_vocabulary_spec_witness :
    (([("b", 2), ("a", 0)] : List (String × Nat)).map Prod.snd).Nodup
    ∧ ("b", 3) ∈ dumpPairs [("b", 2), ("a", 0)] := by
  have hnd : (([("b", 2), ("a", 0)] : List (String × Nat)).map Prod.snd).Nodup :=
    by decide
  exact ⟨hnd,
    ((dump_vocabulary_spec [("b", 2), ("a", 0)] hnd).2.2.2 "b" 2).mp (by decide)⟩

end Educe
